import Mathlib

/-
Verification of the access-control-explorer authorization core.

Shallow embedding of the Go sources:
  * `DM`   — abac/decisionmaker (PDP): policy resolution, retrieval, evaluation.
  * `RO`   — abac/requestorchestrator: the orchestrator's public vocabulary.
  * `Orch` — examples/abac/internal/requestorchestrator: the context handler.
  * `Trie` — examples/abac/pkg/trie: the route trie.
  * `PEP`  — examples/abac/internal/enforcer: the enforcement middleware.

Concurrency fan-outs (errgroup goroutines merging into a mutex-guarded map)
are embedded as their sequential linearizations: tasks are processed in
registration order, stopping at the first error, which is one of the
schedules the Go code can exhibit.  Go `map[string]any` values are embedded
as insertion-ordered association lists, with `Option` distinguishing a nil
map from an allocated empty one.  Fallible Go functions returning
`(T, error)` become `Except String T`.
-/

/-- Attribute values. The Go sources store attributes as `map[string]any`;
the payloads are opaque to every algorithm verified here, so the value
domain is embedded as a small closed sum. -/
inductive AttrValue where
  | str (s : String)
  | int (n : Int)
  | boolean (b : Bool)
  | null
deriving Repr, DecidableEq

/-- A Go `map[string]any`: `none` is a nil map, `some l` an allocated
(possibly empty) map embedded as an insertion-ordered association list. -/
abbrev GoMap := Option (List (String × AttrValue))

/-- Substring containment, with the division point exposed so containment
proofs can be definitional: `s` contains `sub` when `s = pre ++ (sub ++ post)`. -/
def strContains (s sub : String) : Prop := ∃ pre post, s = pre ++ (sub ++ post)

theorem strContains_append_left (a s sub : String) (h : strContains s sub) :
    strContains (a ++ s) sub := by
  obtain ⟨pre, post, rfl⟩ := h
  exact ⟨a ++ pre, post, (String.append_assoc a pre _).symm⟩

namespace DM

/-- `decisionmaker.Decision`: the closed decision enumeration. -/
inductive Decision where
  | permit
  | deny
  | indeterminate
  | notApplicable
deriving Repr, DecidableEq

/-- `decisionmaker.StatusCode`: the closed status-code enumeration. -/
inductive StatusCode where
  | ok
  | missingAttribute
  | processingError
  | invalidRequest
  | policyNotFound
  | evaluationError
deriving Repr, DecidableEq

/-- `decisionmaker.Status`. -/
structure Status where
  code : StatusCode
  message : String
deriving Repr, DecidableEq

/-- `decisionmaker.Subject`. -/
structure Subject where
  id : String
  type : String
  attributes : GoMap
deriving Repr, DecidableEq

/-- `decisionmaker.Resource`. -/
structure Resource where
  id : String
  type : String
  attributes : GoMap
deriving Repr, DecidableEq

/-- `decisionmaker.Action`. -/
structure Action where
  id : String
  attributes : GoMap
deriving Repr, DecidableEq

/-- `decisionmaker.DecisionRequest`. The `uuid.UUID` request id is embedded
as an opaque string. -/
structure DecisionRequest where
  requestID : String
  subject : Subject
  resource : Resource
  action : Action
  environment : GoMap
deriving Repr, DecidableEq

/-- `decisionmaker.Obligation`. -/
structure Obligation where
  id : String
  attributes : GoMap
deriving Repr, DecidableEq

/-- `decisionmaker.Advice`. -/
structure Advice where
  id : String
  attributes : GoMap
deriving Repr, DecidableEq

/-- `decisionmaker.PolicyIdReference`. -/
structure PolicyIdReference where
  id : String
  version : String
deriving Repr, DecidableEq

/-- `decisionmaker.Policy`; `Content []byte` is opaque, embedded as a string. -/
structure Policy where
  id : String
  version : String
  content : String
deriving Repr, DecidableEq

/-- `decisionmaker.EvaluationResult`. -/
structure EvaluationResult where
  decision : Decision
  status : Status
  obligations : List Obligation
  advice : List Advice
deriving Repr, DecidableEq

/-- `decisionmaker.DecisionResponse`. The Go `Status` field is a pointer but
every `MakeDecision` path assigns it, so it is embedded as a plain field;
`EvaluatedAt` (a wall-clock timestamp) is an abstract `Nat`. -/
structure DecisionResponse where
  requestID : String
  decision : Decision
  status : Status
  obligations : List Obligation
  advice : List Advice
  evaluatedAt : Nat
  policyIdReferences : List PolicyIdReference
deriving Repr, DecidableEq

/-- `policyprovider.GetPolicyRequest`. -/
structure GetPolicyRequest where
  id : String
  version : String
deriving Repr, DecidableEq

/-- `policyprovider.PolicyResponse`. -/
structure PolicyResponse where
  id : String
  version : String
  content : String
deriving Repr, DecidableEq

/-- The message `resolve` produces for a same-version duplicate
(`fmt.Errorf("duplicate policy reference detected: policy \x27%s\x27 version \x27%s\x27
returned by multiple processors", ...)`). -/
def dupSameVersionMsg (id ver : String) : String :=
  "duplicate policy reference detected" ++
    (": policy \x27" ++ id ++ "\x27 version \x27" ++ ver ++
     "\x27 returned by multiple processors")

/-- The message `resolve` produces for a version conflict
(`fmt.Errorf("duplicate policy ID \x27%s\x27 found: existing version \x27%s\x27,
conflicting version \x27%s\x27", ...)`). -/
def dupDiffVersionMsg (id oldVer newVer : String) : String :=
  "duplicate policy ID" ++
    (" \x27" ++ id ++ "\x27 found: existing version \x27" ++ oldVer ++
     "\x27, conflicting version \x27" ++ newVer ++ "\x27")

/-- The body of the per-processor merge loop in `decisionMaker.resolve`:
fold one processor's references into the shared `seen` map (association list
keyed by policy ID), failing on a duplicate ID exactly as the source does. -/
def insertRefs (seen : List PolicyIdReference) :
    List PolicyIdReference → Except String (List PolicyIdReference)
  | [] => .ok seen
  | r :: rs =>
    match seen.find? (fun s => s.id == r.id) with
    | none => insertRefs (seen ++ [r]) rs
    | some s =>
      if s.version == r.version then
        .error (dupSameVersionMsg s.id s.version)
      else
        .error (dupDiffVersionMsg r.id s.version r.version)

/-- Sequential linearization of the `resolve` errgroup: process each
processor's outcome in order, stopping at the first error. -/
def resolveSeen (seen : List PolicyIdReference) :
    List (Except String (List PolicyIdReference)) →
      Except String (List PolicyIdReference)
  | [] => .ok seen
  | .error e :: _ => .error e
  | .ok rs :: rest =>
    match insertRefs seen rs with
    | .error e => .error e
    | .ok seen' => resolveSeen seen' rest

/-- `decisionMaker.resolve` as a function of the processors' outcomes:
fails when no processors are configured, otherwise merges every outcome
into the deduplication map and returns its values (insertion order stands
in for Go's unspecified map iteration order). -/
def resolveOutcomes (outs : List (Except String (List PolicyIdReference))) :
    Except String (List PolicyIdReference) :=
  if outs.isEmpty then .error "no policy resolve processors configured"
  else resolveSeen [] outs

/-- The decision maker's injected collaborators (`processors`, `provider`,
`evaluator`) plus the wall-clock reading used for `EvaluatedAt`. -/
structure Env where
  processors : List (DecisionRequest → Except String (List PolicyIdReference))
  provider : List GetPolicyRequest → Except String (List PolicyResponse)
  evaluator : DecisionRequest → List Policy → Except String EvaluationResult
  now : Nat

/-- `decisionMaker.resolve`. -/
def resolve (env : Env) (req : DecisionRequest) :
    Except String (List PolicyIdReference) :=
  resolveOutcomes (env.processors.map (fun p => p req))

/-- `decisionMaker.getPolicies`. -/
def getPolicies (env : Env) (refs : List PolicyIdReference) :
    Except String (List Policy) :=
  if refs.isEmpty then .error "no policy references provided"
  else
    match env.provider (refs.map (fun r => ⟨r.id, r.version⟩)) with
    | .error e => .error ("failed to retrieve policies: " ++ e)
    | .ok resps => .ok (resps.map (fun r => ⟨r.id, r.version, r.content⟩))

/-- `decisionMaker.MakeDecision`; the nil request pointer is `none`. -/
def MakeDecision (env : Env) (req : Option DecisionRequest) :
    Except String DecisionResponse :=
  match req with
  | none => .error "decision request cannot be nil"
  | some r =>
    match resolve env r with
    | .error e =>
      .ok { requestID := r.requestID, decision := .indeterminate,
            status := ⟨.processingError, "Failed to resolve policies: " ++ e⟩,
            obligations := [], advice := [],
            evaluatedAt := env.now, policyIdReferences := [] }
    | .ok policyRefs =>
      if policyRefs.isEmpty then
        .ok { requestID := r.requestID, decision := .notApplicable,
              status := ⟨.policyNotFound,
                         "No applicable policies found for the request"⟩,
              obligations := [], advice := [],
              evaluatedAt := env.now, policyIdReferences := [] }
      else
        match getPolicies env policyRefs with
        | .error e =>
          .ok { requestID := r.requestID, decision := .indeterminate,
                status := ⟨.processingError,
                           "Failed to retrieve policies: " ++ e⟩,
                obligations := [], advice := [],
                evaluatedAt := env.now, policyIdReferences := policyRefs }
        | .ok policies =>
          match env.evaluator r policies with
          | .error e =>
            .ok { requestID := r.requestID, decision := .indeterminate,
                  status := ⟨.evaluationError,
                             "Policy evaluation failed: " ++ e⟩,
                  obligations := [], advice := [],
                  evaluatedAt := env.now, policyIdReferences := policyRefs }
          | .ok result =>
            .ok { requestID := r.requestID, decision := result.decision,
                  status := result.status,
                  obligations := result.obligations, advice := result.advice,
                  evaluatedAt := env.now, policyIdReferences := policyRefs }

end DM

namespace RO

/-- `requestorchestrator.Decision` (a distinct Go string type with the same
four values). -/
inductive Decision where
  | permit
  | deny
  | indeterminate
  | notApplicable
deriving Repr, DecidableEq

/-- `requestorchestrator.StatusCode`. -/
inductive StatusCode where
  | ok
  | missingAttribute
  | processingError
  | invalidRequest
  | policyNotFound
  | evaluationError
deriving Repr, DecidableEq

/-- `requestorchestrator.Subject`. -/
structure Subject where
  id : String
  type : String
deriving Repr, DecidableEq

/-- `requestorchestrator.Action`. -/
structure Action where
  id : String
deriving Repr, DecidableEq

/-- `requestorchestrator.Resource`. -/
structure Resource where
  id : String
  type : String
deriving Repr, DecidableEq

/-- `requestorchestrator.AccessRequest`. -/
structure AccessRequest where
  subject : Subject
  action : Action
  resource : Resource
deriving Repr, DecidableEq

/-- `requestorchestrator.Obligation`. -/
structure Obligation where
  id : String
  attributes : GoMap
deriving Repr, DecidableEq

/-- `requestorchestrator.Advice`. -/
structure Advice where
  id : String
  attributes : GoMap
deriving Repr, DecidableEq

/-- `requestorchestrator.Status`. -/
structure Status where
  code : StatusCode
  message : String
deriving Repr, DecidableEq

/-- `requestorchestrator.PolicyIdReference`. -/
structure PolicyIdReference where
  id : String
  version : String
deriving Repr, DecidableEq

/-- `requestorchestrator.AccessResponse`. -/
structure AccessResponse where
  requestID : String
  decision : Decision
  status : Status
  obligations : List Obligation
  advices : List Advice
  evaluatedAt : Nat
  policyIdReferences : List PolicyIdReference
deriving Repr, DecidableEq

end RO

/-- The Go conversion `ro.Decision(resp.Decision)` between the two string
types (it preserves the underlying string). -/
def DM.Decision.toRO : DM.Decision → RO.Decision
  | .permit => .permit
  | .deny => .deny
  | .indeterminate => .indeterminate
  | .notApplicable => .notApplicable

/-- The Go conversion `ro.StatusCode(resp.Status.Code)`. -/
def DM.StatusCode.toRO : DM.StatusCode → RO.StatusCode
  | .ok => .ok
  | .missingAttribute => .missingAttribute
  | .processingError => .processingError
  | .invalidRequest => .invalidRequest
  | .policyNotFound => .policyNotFound
  | .evaluationError => .evaluationError

namespace Orch

/-- `infoprovider.GetInfoRequest`. `Params` is `any` in Go; the orchestrator
only ever passes entity-id strings, so it is embedded as a string. The
`Context` field is never set by the orchestrator and is omitted. -/
structure GetInfoRequest where
  infoType : String
  params : String
deriving Repr, DecidableEq

/-- `infoprovider.GetInfoResponse`; `Info` is a Go map that may be nil. -/
structure GetInfoResponse where
  info : GoMap
deriving Repr, DecidableEq

/-- The orchestrator-local `Subject` (embeds `ro.Subject`, adds attributes). -/
structure Subject where
  base : RO.Subject
  attributes : GoMap
deriving Repr, DecidableEq

/-- The orchestrator-local `Resource`. -/
structure Resource where
  base : RO.Resource
  attributes : GoMap
deriving Repr, DecidableEq

/-- `requestorchestrator.EnrichedAccessRequest`. -/
structure EnrichedAccessRequest where
  subject : Subject
  action : RO.Action
  resource : Resource
deriving Repr, DecidableEq

/-- The orchestrator's injected collaborators: the info provider, the info
analysers, the decision maker, and the `uuid.New()` value drawn in
`createDecisionRequest`. -/
structure Env where
  infoProvider : GetInfoRequest → Except String GetInfoResponse
  infoAnalysers : List (EnrichedAccessRequest → Except String (List GetInfoRequest))
  decisionMaker : DM.DecisionRequest → Except String DM.DecisionResponse
  freshID : String

/-- `requestOrchestrator.enrichAccessRequest`: the two-task enrichment
fan-out, linearized subject-first. The `make(map[string]any)` initial
attributes are overwritten by the providers' `Info` maps on success,
exactly as the source assigns `resp.Info`. -/
def enrichAccessRequest (env : Env) (req : RO.AccessRequest) :
    Except String EnrichedAccessRequest :=
  match env.infoProvider ⟨req.subject.type, req.subject.id⟩ with
  | .error e => .error ("failed to get subject info: " ++ e)
  | .ok subjResp =>
    match env.infoProvider ⟨req.resource.type, req.resource.id⟩ with
    | .error e => .error ("failed to get resource info: " ++ e)
    | .ok resResp =>
      .ok { subject := ⟨req.subject, subjResp.info⟩,
            action := req.action,
            resource := ⟨req.resource, resResp.info⟩ }

/-- `requestOrchestrator.AnalyseInfoRequirements`: run the analysers in
order, concatenating outputs, stopping at the first failure. -/
def analyseList
    (analysers : List (EnrichedAccessRequest → Except String (List GetInfoRequest)))
    (req : EnrichedAccessRequest) : Except String (List GetInfoRequest) :=
  match analysers with
  | [] => .ok []
  | a :: rest =>
    match a req with
    | .error e => .error ("analyser failed: " ++ e)
    | .ok reqs =>
      match analyseList rest req with
      | .error e => .error e
      | .ok more => .ok (reqs ++ more)

/-- The merge loop of one additional-info task: fold a response's `Info`
entries into the shared result map, failing on a key already present. -/
def mergeInfo (result : List (String × AttrValue)) :
    List (String × AttrValue) → Except String (List (String × AttrValue))
  | [] => .ok result
  | (k, v) :: rest =>
    if (result.find? (fun p => p.1 == k)).isSome then
      .error ("duplicate info for " ++ k)
    else
      mergeInfo (result ++ [(k, v)]) rest

/-- Sequential linearization of the additional-info errgroup in
`requestOrchestrator.getAdditionalInfo`: fetch and merge each request in
order, stopping at the first error. -/
def fetchInfo (provider : GetInfoRequest → Except String GetInfoResponse)
    (acc : List (String × AttrValue)) :
    List GetInfoRequest → Except String (List (String × AttrValue))
  | [] => .ok acc
  | r :: rest =>
    match provider r with
    | .error e => .error ("failed to get info for " ++ r.params ++ ": " ++ e)
    | .ok resp =>
      match mergeInfo acc (resp.info.getD []) with
      | .error e => .error e
      | .ok acc' => fetchInfo provider acc' rest

/-- `requestOrchestrator.getAdditionalInfo` (an empty request list yields
the freshly made empty map). -/
def getAdditionalInfo (env : Env) (infoReqs : List GetInfoRequest) :
    Except String (List (String × AttrValue)) :=
  fetchInfo env.infoProvider [] infoReqs

/-- The merge loop as the Go goroutine actually executes it, with the mutex
state reified: the returned flag records whether `mu.Unlock()` was reached.
The source takes `mu.Lock()` before the loop and calls `mu.Unlock()` only
after it; the duplicate-key `return` leaves the critical section without
unlocking (there is no `defer`). -/
def mergeInfoCS (result : List (String × AttrValue)) :
    List (String × AttrValue) →
      Except String (List (String × AttrValue)) × Bool
  | [] => (.ok result, true)
  | (k, v) :: rest =>
    if (result.find? (fun p => p.1 == k)).isSome then
      (.error ("duplicate info for " ++ k), false)
    else
      mergeInfoCS (result ++ [(k, v)]) rest

/-- `createDecisionRequest`: builds the PDP request from the enriched
request, the merged additional info (always an allocated map), and the
freshly generated request id. -/
def createDecisionRequest (req : EnrichedAccessRequest)
    (additionalInfo : List (String × AttrValue)) (rid : String) :
    DM.DecisionRequest :=
  { requestID := rid,
    subject := ⟨req.subject.base.id, req.subject.base.type, req.subject.attributes⟩,
    resource := ⟨req.resource.base.id, req.resource.base.type, req.resource.attributes⟩,
    action := ⟨req.action.id, none⟩,
    environment := some additionalInfo }

/-- `toAccessResponse`: project the decision response onto the
orchestrator's vocabulary (`Advice` becomes `Advices`; the Go code maps
each list elementwise when non-empty and leaves nil otherwise, which
coincides with `List.map` on the embedding). -/
def toAccessResponse (resp : DM.DecisionResponse) : RO.AccessResponse :=
  { requestID := resp.requestID,
    decision := resp.decision.toRO,
    status := ⟨resp.status.code.toRO, resp.status.message⟩,
    obligations := resp.obligations.map (fun o => ⟨o.id, o.attributes⟩),
    advices := resp.advice.map (fun a => ⟨a.id, a.attributes⟩),
    evaluatedAt := resp.evaluatedAt,
    policyIdReferences := resp.policyIdReferences.map (fun p => ⟨p.id, p.version⟩) }

/-- `requestOrchestrator.EvaluateAccess`. -/
def EvaluateAccess (env : Env) (req : RO.AccessRequest) :
    Except String RO.AccessResponse :=
  match enrichAccessRequest env req with
  | .error e => .error ("failed to enrich request: " ++ e)
  | .ok enriched =>
    match analyseList env.infoAnalysers enriched with
    | .error e => .error ("failed to analyze requirements: " ++ e)
    | .ok infoReqs =>
      match getAdditionalInfo env infoReqs with
      | .error e => .error ("failed to get additional info: " ++ e)
      | .ok additionalInfo =>
        match env.decisionMaker
            (createDecisionRequest enriched additionalInfo env.freshID) with
        | .error e => .error ("failed to make decision: " ++ e)
        | .ok resp => .ok (toAccessResponse resp)

end Orch

namespace Trie

/-- `trie.Node[T]`: children keyed by segment (a Go map, embedded as an
association list with unique keys), the stored value (`none` until a
terminal is written, standing for Go's zero value), and the `IsEnd` flag. -/
inductive Node (T : Type) where
  | mk (children : List (String × Node T)) (val : Option T) (isEnd : Bool)

/-- Projection for the `Children` field. -/
def Node.children {T : Type} : Node T → List (String × Node T)
  | .mk c _ _ => c

/-- Projection for the `Value` field. -/
def Node.val {T : Type} : Node T → Option T
  | .mk _ v _ => v

/-- Projection for the `IsEnd` field. -/
def Node.isEnd {T : Type} : Node T → Bool
  | .mk _ _ e => e

/-- `trie.New`. -/
def Node.new {T : Type} : Node T := .mk [] none false

/-- Map lookup `n.Children[p]` (a missing key is Go's nil pointer). -/
def findChild {T : Type} (n : Node T) (k : String) : Option (Node T) :=
  (n.children.find? (fun p => p.1 == k)).map Prod.snd

/-- Map update `cs[k] = c` on the association-list embedding. -/
def setChild {T : Type} (cs : List (String × Node T)) (k : String) (c : Node T) :
    List (String × Node T) :=
  match cs with
  | [] => [(k, c)]
  | (k', c') :: rest =>
    if k' == k then (k, c) :: rest else (k', c') :: setChild rest k c

/-- Go's `fmt` rendering `%v` of a `[]string`. -/
def goStrSlice (xs : List String) : String :=
  "[" ++ String.intercalate " " xs ++ "]"

/-- `Node.Insert`, with the original `paths` threaded through for the error
message. The Go method mutates the receiver; the embedding rebuilds the
spine (a failed duplicate insert leaves the input tree unchanged, whereas
Go keeps any intermediate nodes it created — no claim observes that). -/
def insertAux {T : Type} (orig : List String) :
    Node T → List String → T → Except String (Node T)
  | .mk cs _v e, [], value =>
    if e then .error ("paths " ++ goStrSlice orig ++ " already exists")
    else .ok (.mk cs (some value) true)
  | .mk cs v e, p :: ps, value =>
    let child := match (cs.find? (fun q => q.1 == p)).map Prod.snd with
      | some c => c
      | none => .mk [] none false
    match insertAux orig child ps value with
    | .error msg => .error msg
    | .ok c' => .ok (.mk (setChild cs p c') v e)

/-- `Node.Insert`. -/
def Node.insert {T : Type} (n : Node T) (paths : List String) (value : T) :
    Except String (Node T) :=
  insertAux paths n paths value

/-- `Node.Search`'s walk, with the original `path` threaded through for the
error messages: exact child first, wildcard `*` as fallback, error when
neither exists; at the end the node must be a terminal. -/
def searchAux {T : Type} (orig : List String) :
    Node T → List String → Except String (Node T)
  | n, [] =>
    if n.isEnd then .ok n
    else .error ("paths " ++ goStrSlice orig ++ " not found")
  | n, p :: ps =>
    match findChild n p with
    | some c => searchAux orig c ps
    | none =>
      match findChild n "*" with
      | some c => searchAux orig c ps
      | none => .error ("no route found for key " ++ p ++ " in paths " ++ goStrSlice orig)

/-- `Node.Search`. -/
def Node.search {T : Type} (n : Node T) (path : List String) :
    Except String (Node T) :=
  searchAux path n path

/-- Whether a stored pattern matches a path segmentwise, a wildcard segment
matching anything (the matching relation the trie is meant to decide). -/
def patternMatches : List String → List String → Bool
  | [], [] => true
  | p :: ps, s :: ss => (p == "*" || p == s) && patternMatches ps ss
  | _, _ => false

end Trie

namespace PEP

/-- Observable actions of one enforced request, in order: obligation and
advice handler invocations, the downstream handler, and the error responses
written through the error handler (HTTP status plus the `error` field of the
body). -/
inductive Event where
  | obligationCall (id : String)
  | adviceCall (id : String)
  | downstream
  | respond (status : Nat) (errorCode : String)
deriving Repr, DecidableEq

/-- Lookup in the handler registration map (`map[string]...Handler`); the
handler itself is represented by its outcome. -/
def findHandler (hs : List (String × Except String Unit)) (id : String) :
    Option (Except String Unit) :=
  (hs.find? (fun h => h.1 == id)).map Prod.snd

/-- `Enforcer.handleObligations`: run each obligation's handler in order;
a missing handler or a handler error stops the loop with an error. Returns
the invocation trace and the error, if any. -/
def handleObligations (hs : List (String × Except String Unit)) :
    List RO.Obligation → List Event × Option String
  | [] => ([], none)
  | ob :: rest =>
    match findHandler hs ob.id with
    | none => ([], some ("no handler registered for obligation ID: " ++ ob.id))
    | some (.error e) =>
      ([Event.obligationCall ob.id],
       some ("obligation handler failed for ID " ++ ob.id ++ ": " ++ e))
    | some (.ok _) =>
      let r := handleObligations hs rest
      (Event.obligationCall ob.id :: r.1, r.2)

/-- `Enforcer.handleAdvice`: like obligations, but a missing handler is
silently skipped. -/
def handleAdvice (hs : List (String × Except String Unit)) :
    List RO.Advice → List Event × Option String
  | [] => ([], none)
  | a :: rest =>
    match findHandler hs a.id with
    | none => handleAdvice hs rest
    | some (.error e) =>
      ([Event.adviceCall a.id],
       some ("advice handler failed for ID " ++ a.id ++ ": " ++ e))
    | some (.ok _) =>
      let r := handleAdvice hs rest
      (Event.adviceCall a.id :: r.1, r.2)

/-- The enforcer with its collaborators' outcomes: registered handlers, the
request extractor's outcome, and the orchestrator. -/
structure Enforcer where
  obligationHandlers : List (String × Except String Unit)
  adviceHandlers : List (String × Except String Unit)
  extract : Except String RO.AccessRequest
  evaluate : RO.AccessRequest → Except String RO.AccessResponse

/-- `Enforcer.Enforce`'s per-request protocol as an event trace: extraction
(400 on failure), evaluation (500 on failure), then the decision dispatch —
Permit runs obligations (500 `obligation_failed` on error, downstream never
reached), then advice (errors logged and swallowed), then downstream; Deny
runs both (errors logged) and responds 403; NotApplicable responds 403;
Indeterminate responds 500. -/
def enforce (e : Enforcer) : List Event :=
  match e.extract with
  | .error _ => [.respond 400 "request_extraction_failed"]
  | .ok req =>
    match e.evaluate req with
    | .error _ => [.respond 500 "access_evaluation_failed"]
    | .ok resp =>
      match resp.decision with
      | .permit =>
        let ob := handleObligations e.obligationHandlers resp.obligations
        match ob.2 with
        | some _ => ob.1 ++ [.respond 500 "obligation_failed"]
        | none =>
          let ad := handleAdvice e.adviceHandlers resp.advices
          ob.1 ++ ad.1 ++ [.downstream]
      | .deny =>
        let ob := handleObligations e.obligationHandlers resp.obligations
        let ad := handleAdvice e.adviceHandlers resp.advices
        ob.1 ++ ad.1 ++ [.respond 403 "access_denied"]
      | .notApplicable => [.respond 403 "access_denied"]
      | .indeterminate => [.respond 500 "indeterminate_decision"]

end PEP

namespace DM

theorem insertRefs_ok_of_nodup (rs : List PolicyIdReference) :
    ∀ seen : List PolicyIdReference,
      ((seen ++ rs).map PolicyIdReference.id).Nodup →
      insertRefs seen rs = .ok (seen ++ rs) := by
  induction rs with
  | nil => intro seen _; simp [insertRefs]
  | cons r rs ih =>
    intro seen h
    have hids : (seen.map PolicyIdReference.id ++
        (r.id :: rs.map PolicyIdReference.id)).Nodup := by
      simpa using h
    rw [List.nodup_append] at hids
    have hrid : r.id ∉ seen.map PolicyIdReference.id := by
      intro hmem
      exact hids.2.2 hmem (by simp)
    have hfind : seen.find? (fun s => s.id == r.id) = none := by
      rw [List.find?_eq_none]
      intro s hs
      simp only [beq_iff_eq]
      intro hcontra
      exact hrid (hcontra ▸ List.mem_map_of_mem PolicyIdReference.id hs)
    have hre : seen ++ r :: rs = (seen ++ [r]) ++ rs := by simp
    rw [insertRefs, hfind, hre]
    exact ih (seen ++ [r]) (by rw [← hre]; exact h)

theorem insertRefs_error_shape (rs : List PolicyIdReference) :
    ∀ (seen : List PolicyIdReference) (e : String),
      insertRefs seen rs = .error e →
      (∃ i v, e = dupSameVersionMsg i v) ∨ (∃ i v w, e = dupDiffVersionMsg i v w) := by
  induction rs with
  | nil => intro seen e h; simp [insertRefs] at h
  | cons r rs ih =>
    intro seen e h
    cases hfind : seen.find? (fun s => s.id == r.id) with
    | none =>
      simp only [insertRefs, hfind] at h
      exact ih (seen ++ [r]) e h
    | some s =>
      simp only [insertRefs, hfind] at h
      by_cases hv : (s.version == r.version) = true
      · rw [if_pos hv] at h
        exact Or.inl ⟨s.id, s.version, ((Except.error.injEq _ _).mp h).symm⟩
      · rw [if_neg hv] at h
        exact Or.inr ⟨r.id, s.version, r.version, ((Except.error.injEq _ _).mp h).symm⟩

theorem insertRefs_error_of_dup (rs : List PolicyIdReference) :
    ∀ seen : List PolicyIdReference,
      (seen.map PolicyIdReference.id).Nodup →
      ¬ ((seen ++ rs).map PolicyIdReference.id).Nodup →
      ∃ e, insertRefs seen rs = .error e := by
  induction rs with
  | nil => intro seen hs hd; simp at hd; exact absurd hs hd
  | cons r rs ih =>
    intro seen hs hd
    cases hfind : seen.find? (fun s => s.id == r.id) with
    | some s =>
      by_cases hv : (s.version == r.version) = true
      · exact ⟨_, by simp only [insertRefs, hfind]; rw [if_pos hv]⟩
      · exact ⟨_, by simp only [insertRefs, hfind]; rw [if_neg hv]⟩
    | none =>
      have hrid : r.id ∉ seen.map PolicyIdReference.id := by
        intro hmem
        obtain ⟨s, hsmem, hsid⟩ := List.mem_map.mp hmem
        have := List.find?_eq_none.mp hfind s hsmem
        simp only [beq_iff_eq] at this
        exact this hsid
      have hnodup' : ((seen ++ [r]).map PolicyIdReference.id).Nodup := by
        simp only [List.map_append, List.map_cons, List.map_nil]
        rw [List.nodup_append]
        refine ⟨hs, List.nodup_singleton _, ?_⟩
        intro a ha hb
        simp at hb
        exact hrid (hb ▸ ha)
      have hre : (seen ++ [r]) ++ rs = seen ++ r :: rs := by simp
      obtain ⟨e, he⟩ := ih (seen ++ [r]) hnodup' (by rw [hre]; exact hd)
      exact ⟨e, by simp only [insertRefs, hfind]; exact he⟩

theorem resolveSeen_ok_of_nodup (rss : List (List PolicyIdReference)) :
    ∀ seen : List PolicyIdReference,
      ((seen ++ rss.flatten).map PolicyIdReference.id).Nodup →
      resolveSeen seen (rss.map Except.ok) = .ok (seen ++ rss.flatten) := by
  induction rss with
  | nil => intro seen h; simp [resolveSeen]
  | cons rs rss ih =>
    intro seen h
    have hsub : ((seen ++ rs).map PolicyIdReference.id).Nodup := by
      refine List.Nodup.sublist (List.Sublist.map _ ?_) h
      exact (List.sublist_append_left rs rss.flatten).append_left seen
    have hins := insertRefs_ok_of_nodup rs seen hsub
    have hre : (seen ++ rs) ++ rss.flatten = seen ++ (rs :: rss).flatten := by simp
    rw [List.map_cons, resolveSeen, hins, ← hre]
    exact ih (seen ++ rs) (by rw [hre]; exact h)

theorem resolveSeen_error_of_dup (rss : List (List PolicyIdReference)) :
    ∀ seen : List PolicyIdReference,
      (seen.map PolicyIdReference.id).Nodup →
      ¬ ((seen ++ rss.flatten).map PolicyIdReference.id).Nodup →
      ∃ e, resolveSeen seen (rss.map Except.ok) = .error e ∧
        ((∃ i v, e = dupSameVersionMsg i v) ∨ (∃ i v w, e = dupDiffVersionMsg i v w)) := by
  induction rss with
  | nil => intro seen hs hd; simp at hd; exact absurd hs hd
  | cons rs rss ih =>
    intro seen hs hd
    by_cases hfirst : ((seen ++ rs).map PolicyIdReference.id).Nodup
    · have hins := insertRefs_ok_of_nodup rs seen hfirst
      have hre : (seen ++ rs) ++ rss.flatten = seen ++ (rs :: rss).flatten := by simp
      obtain ⟨e, he, hshape⟩ := ih (seen ++ rs) hfirst (by rw [hre]; exact hd)
      exact ⟨e, by rw [List.map_cons, resolveSeen, hins]; exact he, hshape⟩
    · obtain ⟨e, he⟩ := insertRefs_error_of_dup rs seen hs hfirst
      exact ⟨e, by rw [List.map_cons, resolveSeen, he],
        insertRefs_error_shape rs seen e he⟩

end DM

/-- Claim C1: for every non-nil DecisionRequest, `MakeDecision` returns a
DecisionResponse and a nil error (failures of resolution, retrieval, or
evaluation are encoded inside the response), and it returns a non-nil error
(and no response) exactly when the request is nil. -/
theorem c1_makeDecision_errors_only_on_nil_request :
    ∀ (env : DM.Env) (r : DM.DecisionRequest),
      (∃ resp, DM.MakeDecision env (some r) = .ok resp) ∧
      DM.MakeDecision env none = .error "decision request cannot be nil" := by
  intro env r
  refine ⟨?_, rfl⟩
  rcases hres : DM.resolve env r with e | refs
  · exact ⟨_, by simp only [DM.MakeDecision, hres]; rfl⟩
  · by_cases hemp : refs.isEmpty
    · exact ⟨_, by simp only [DM.MakeDecision, hres, if_pos hemp]; rfl⟩
    · rcases hget : DM.getPolicies env refs with e | ps
      · exact ⟨_, by simp only [DM.MakeDecision, hres, if_neg hemp, hget]; rfl⟩
      · rcases hev : env.evaluator r ps with e | result
        · exact ⟨_, by simp only [DM.MakeDecision, hres, if_neg hemp, hget, hev]; rfl⟩
        · exact ⟨_, by simp only [DM.MakeDecision, hres, if_neg hemp, hget, hev]; rfl⟩

/-- Both duplicate error messages literally begin with the substrings the
spec quotes, so containment under any wrapper prefix is definitional. -/
theorem dupSame_contains (pre i v : String) :
    strContains (pre ++ DM.dupSameVersionMsg i v)
      "duplicate policy reference detected" :=
  ⟨pre, _, rfl⟩

theorem dupDiff_contains (pre i v w : String) :
    strContains (pre ++ DM.dupDiffVersionMsg i v w) "duplicate policy ID" :=
  ⟨pre, _, rfl⟩

/-- A sample decision request used to instantiate theorems at concrete inputs. -/
def sampleRequest : DM.DecisionRequest :=
  ⟨"rid", ⟨"u", "user", none⟩, ⟨"o", "order", none⟩, ⟨"read", none⟩, none⟩

/-- Claim C2: two resolver-produced references sharing an ID make the
decision Indeterminate with status ProcessingError — message containing
"duplicate policy reference detected" when the versions are equal and
"duplicate policy ID" when they differ (part 1 for two single-reference
resolvers with the exact message split, part 3 for any resolver outputs
with a duplicated ID); without duplicate IDs the deduplicated set passed
onward is the union, with exactly one reference per ID (part 2). -/
theorem c2_duplicate_policy_id_detection :
    (∀ (prov : List DM.GetPolicyRequest → Except String (List DM.PolicyResponse))
       (eval : DM.DecisionRequest → List DM.Policy → Except String DM.EvaluationResult)
       (now : Nat) (req : DM.DecisionRequest) (r1 r2 : DM.PolicyIdReference),
       r1.id = r2.id →
       ∃ resp,
         DM.MakeDecision ⟨[fun _ => Except.ok [r1], fun _ => Except.ok [r2]], prov, eval, now⟩
             (some req) = .ok resp ∧
         resp.decision = DM.Decision.indeterminate ∧
         resp.status.code = DM.StatusCode.processingError ∧
         strContains resp.status.message
           (if r1.version = r2.version then "duplicate policy reference detected"
            else "duplicate policy ID"))
    ∧ (∀ rss : List (List DM.PolicyIdReference), rss ≠ [] →
        ((rss.flatten).map DM.PolicyIdReference.id).Nodup →
        DM.resolveOutcomes (rss.map Except.ok) = .ok rss.flatten ∧
        ∀ i, ((rss.flatten).map DM.PolicyIdReference.id).count i ≤ 1)
    ∧ (∀ (prov : List DM.GetPolicyRequest → Except String (List DM.PolicyResponse))
       (eval : DM.DecisionRequest → List DM.Policy → Except String DM.EvaluationResult)
       (now : Nat) (req : DM.DecisionRequest) (rss : List (List DM.PolicyIdReference)),
       rss ≠ [] →
       ¬ ((rss.flatten).map DM.PolicyIdReference.id).Nodup →
       ∃ resp,
         DM.MakeDecision ⟨rss.map (fun rs => fun _ => Except.ok rs), prov, eval, now⟩
             (some req) = .ok resp ∧
         resp.decision = DM.Decision.indeterminate ∧
         resp.status.code = DM.StatusCode.processingError ∧
         (strContains resp.status.message "duplicate policy reference detected" ∨
          strContains resp.status.message "duplicate policy ID")) := by
  refine ⟨?_, ?_, ?_⟩
  · intro prov eval now req r1 r2 h
    have hbeq : (r1.id == r2.id) = true := beq_iff_eq.mpr h
    have hfind : [r1].find? (fun s => s.id == r2.id) = some r1 :=
      List.find?_cons_of_pos _ hbeq
    have hins : DM.insertRefs [r1] [r2] =
        if (r1.version == r2.version) = true
        then .error (DM.dupSameVersionMsg r1.id r1.version)
        else .error (DM.dupDiffVersionMsg r2.id r1.version r2.version) := by
      simp only [DM.insertRefs, hfind]
    by_cases hv : r1.version = r2.version
    · have hv' : (r1.version == r2.version) = true := beq_iff_eq.mpr hv
      have hres : DM.resolve
          ⟨[fun _ => Except.ok [r1], fun _ => Except.ok [r2]], prov, eval, now⟩ req =
          .error (DM.dupSameVersionMsg r1.id r1.version) := by
        simp only [DM.resolve, DM.resolveOutcomes, List.map, DM.resolveSeen, DM.insertRefs,
          List.find?_nil, List.nil_append, List.isEmpty_cons,
          Bool.false_eq_true, if_false]
        simp [hfind, hv']
      refine ⟨_, by simp only [DM.MakeDecision, hres]; rfl, rfl, rfl, ?_⟩
      rw [if_pos hv]
      exact dupSame_contains _ _ _
    · have hv' : ¬ (r1.version == r2.version) = true := by
        simpa [beq_iff_eq] using hv
      have hres : DM.resolve
          ⟨[fun _ => Except.ok [r1], fun _ => Except.ok [r2]], prov, eval, now⟩ req =
          .error (DM.dupDiffVersionMsg r2.id r1.version r2.version) := by
        simp only [DM.resolve, DM.resolveOutcomes, List.map, DM.resolveSeen, DM.insertRefs,
          List.find?_nil, List.nil_append, List.isEmpty_cons,
          Bool.false_eq_true, if_false]
        simp [hfind, hv']
      refine ⟨_, by simp only [DM.MakeDecision, hres]; rfl, rfl, rfl, ?_⟩
      rw [if_neg hv]
      exact dupDiff_contains _ _ _ _
  · intro rss hne hnodup
    have hempty : ((rss.map Except.ok :
        List (Except String (List DM.PolicyIdReference)))).isEmpty = false := by
      cases rss with
      | nil => exact absurd rfl hne
      | cons a l => rfl
    have hok := DM.resolveSeen_ok_of_nodup rss [] (by simpa using hnodup)
    refine ⟨?_, fun i => List.nodup_iff_count_le_one.mp hnodup i⟩
    rw [DM.resolveOutcomes, hempty]
    simpa using hok
  · intro prov eval now req rss hne hdup
    obtain ⟨e, he, hshape⟩ :=
      DM.resolveSeen_error_of_dup rss [] (by simp) (by simpa using hdup)
    have hempty : ((rss.map (fun rs => fun _ => Except.ok rs) :
        List (DM.DecisionRequest → Except String (List DM.PolicyIdReference))).map
        (fun p => p req)).isEmpty = false := by
      cases rss with
      | nil => exact absurd rfl hne
      | cons a l => rfl
    have hres : DM.resolve
        ⟨rss.map (fun rs => fun _ => Except.ok rs), prov, eval, now⟩ req = .error e := by
      show DM.resolveOutcomes _ = .error e
      rw [DM.resolveOutcomes, hempty]
      simp only [if_false, List.map_map]
      have hmm : (rss.map ((fun p => p req) ∘
            (fun rs => fun _ => Except.ok rs :
              List DM.PolicyIdReference →
                DM.DecisionRequest → Except String (List DM.PolicyIdReference))) :
          List (Except String (List DM.PolicyIdReference))) = rss.map Except.ok := by
        simp [Function.comp]
      rw [hmm]
      exact he
    refine ⟨_, by simp only [DM.MakeDecision, hres]; rfl, rfl, rfl, ?_⟩
    rcases hshape with ⟨i, v, rfl⟩ | ⟨i, v, w, rfl⟩
    · exact Or.inl (dupSame_contains _ _ _)
    · exact Or.inr (dupDiff_contains _ _ _ _)

/-- Witness for C2 at concrete inputs: two resolvers each returning policy
`p` version `1` yield an Indeterminate/ProcessingError response whose
message contains "duplicate policy reference detected". -/
theorem c2_duplicate_policy_id_detection_witness :
    ∃ resp,
      DM.MakeDecision
          ⟨[fun _ => Except.ok [⟨"p", "1"⟩], fun _ => Except.ok [⟨"p", "1"⟩]],
           fun _ => Except.error "np", fun _ _ => Except.error "ne", 0⟩
          (some sampleRequest) = .ok resp ∧
      resp.decision = DM.Decision.indeterminate ∧
      resp.status.code = DM.StatusCode.processingError ∧
      strContains resp.status.message "duplicate policy reference detected" := by
  have h := c2_duplicate_policy_id_detection.1
    (fun _ => Except.error "np") (fun _ _ => Except.error "ne") 0 sampleRequest
    ⟨"p", "1"⟩ ⟨"p", "1"⟩ rfl
  simpa using h

/-- Claim C3 (amended): the decision is NotApplicable iff the resolver
union is empty or policy retrieval and evaluation succeed and the
evaluator's own result decision is NotApplicable; when the union is empty
the status is PolicyNotFound. -/
theorem c3_notApplicable_characterization :
    ∀ (env : DM.Env) (req : DM.DecisionRequest) (resp : DM.DecisionResponse),
      DM.MakeDecision env (some req) = .ok resp →
      ((resp.decision = DM.Decision.notApplicable ↔
         DM.resolve env req = .ok [] ∨
         (∃ refs policies er, refs ≠ [] ∧ DM.resolve env req = .ok refs ∧
           DM.getPolicies env refs = .ok policies ∧
           env.evaluator req policies = .ok er ∧
           er.decision = DM.Decision.notApplicable))
       ∧ (DM.resolve env req = .ok [] →
           resp.status.code = DM.StatusCode.policyNotFound)) := by
  intro env req resp hmk
  rcases hres : DM.resolve env req with e | refs
  · simp only [DM.MakeDecision, hres] at hmk
    obtain rfl := (Except.ok.injEq _ _).mp hmk
    refine ⟨⟨fun hcontra => by simp at hcontra, ?_⟩, fun hcontra => by simp at hcontra⟩
    rintro (hcontra | ⟨refs', ps', er', hne', hcontra, _⟩) <;> simp at hcontra
  · by_cases hemp : refs.isEmpty
    · have hnil : refs = [] := by simpa [List.isEmpty_iff] using hemp
      subst hnil
      simp only [DM.MakeDecision, hres, if_pos hemp] at hmk
      obtain rfl := (Except.ok.injEq _ _).mp hmk
      exact ⟨⟨fun _ => Or.inl rfl, fun _ => rfl⟩, fun _ => rfl⟩
    · have hne : refs ≠ [] := by simpa [List.isEmpty_iff] using hemp
      rcases hget : DM.getPolicies env refs with e | ps
      · simp only [DM.MakeDecision, hres, if_neg hemp, hget] at hmk
        obtain rfl := (Except.ok.injEq _ _).mp hmk
        refine ⟨⟨fun hcontra => by simp at hcontra, ?_⟩,
          fun hcontra => absurd ((Except.ok.injEq _ _).mp hcontra) hne⟩
        rintro (hcontra | ⟨refs', ps', er', hne', hres', hget', _⟩)
        · exact absurd ((Except.ok.injEq _ _).mp hcontra) hne
        · obtain rfl := (Except.ok.injEq _ _).mp hres'
          rw [hget] at hget'
          simp at hget'
      · rcases hev : env.evaluator req ps with e | er
        · simp only [DM.MakeDecision, hres, if_neg hemp, hget, hev] at hmk
          obtain rfl := (Except.ok.injEq _ _).mp hmk
          refine ⟨⟨fun hcontra => by simp at hcontra, ?_⟩,
            fun hcontra => absurd ((Except.ok.injEq _ _).mp hcontra) hne⟩
          rintro (hcontra | ⟨refs', ps', er', hne', hres', hget', hev', _⟩)
          · exact absurd ((Except.ok.injEq _ _).mp hcontra) hne
          · obtain rfl := (Except.ok.injEq _ _).mp hres'
            rw [hget] at hget'
            obtain rfl := (Except.ok.injEq _ _).mp hget'
            rw [hev] at hev'
            simp at hev'
        · simp only [DM.MakeDecision, hres, if_neg hemp, hget, hev] at hmk
          obtain rfl := (Except.ok.injEq _ _).mp hmk
          refine ⟨⟨fun hna => Or.inr ⟨refs, ps, er, hne, rfl, hget, hev, hna⟩, ?_⟩,
            fun hcontra => absurd ((Except.ok.injEq _ _).mp hcontra) hne⟩
          rintro (hcontra | ⟨refs', ps', er', hne', hres', hget', hev', hna'⟩)
          · exact absurd ((Except.ok.injEq _ _).mp hcontra) hne
          · obtain rfl := (Except.ok.injEq _ _).mp hres'
            rw [hget] at hget'
            obtain rfl := (Except.ok.injEq _ _).mp hget'
            rw [hev] at hev'
            obtain rfl := (Except.ok.injEq _ _).mp hev'
            exact hna'

/-- Counterexample for C3 as stated: with one resolver returning policy
`p`, retrieval succeeding, and the evaluator returning a NotApplicable
result, `MakeDecision` returns a NotApplicable decision whose
PolicyIdReferences list is non-empty — so NotApplicable does not imply an
empty resolver union. -/
theorem c3_counterexample_notApplicable_with_nonempty_refs :
    DM.MakeDecision
        ⟨[fun _ => Except.ok [⟨"p", "1"⟩]],
         fun _ => Except.ok [⟨"p", "1", "content"⟩],
         fun _ _ => Except.ok ⟨DM.Decision.notApplicable,
           ⟨DM.StatusCode.policyNotFound, "no matching rule"⟩, [], []⟩, 0⟩
        (some sampleRequest) =
      .ok ⟨"rid", DM.Decision.notApplicable,
        ⟨DM.StatusCode.policyNotFound, "no matching rule"⟩, [], [], 0,
        [⟨"p", "1"⟩]⟩ ∧
    ([⟨"p", "1"⟩] : List DM.PolicyIdReference) ≠ [] := by
  exact ⟨rfl, by simp⟩

/-- Witness for the amended C3 at a concrete input: an empty resolver union
yields a NotApplicable decision with PolicyNotFound status. -/
theorem c3_notApplicable_characterization_witness :
    ∃ resp, DM.MakeDecision
        ⟨[fun _ => Except.ok []], fun _ => Except.error "np",
         fun _ _ => Except.error "ne", 0⟩ (some sampleRequest) = .ok resp ∧
      resp.decision = DM.Decision.notApplicable ∧
      resp.status.code = DM.StatusCode.policyNotFound := by
  have h := c3_notApplicable_characterization
    ⟨[fun _ => Except.ok []], fun _ => Except.error "np",
     fun _ _ => Except.error "ne", 0⟩ sampleRequest
    ⟨"rid", DM.Decision.notApplicable,
     ⟨DM.StatusCode.policyNotFound, "No applicable policies found for the request"⟩,
     [], [], 0, []⟩ rfl
  exact ⟨_, rfl, h.1.mpr (Or.inl rfl), h.2 rfl⟩

/-- A sample access request used to instantiate theorems at concrete inputs. -/
def sampleAccessRequest : RO.AccessRequest :=
  ⟨⟨"u", "user"⟩, ⟨"read"⟩, ⟨"o", "order"⟩⟩

/-- Claim C4 (amended): whenever `enrichAccessRequest` returns without
error, the enriched request carries the subject provider response's `Info`
map as `Subject.Attributes` and the resource response's `Info` map as
`Resource.Attributes` verbatim — in particular they are non-nil exactly
when those `Info` maps are non-nil (the make-initialized empty maps are
overwritten by the assignment `... = resp.Info`). -/
theorem c4_enrichment_attributes_equal_provider_info :
    ∀ (env : Orch.Env) (req : RO.AccessRequest)
      (sResp rResp : Orch.GetInfoResponse),
      env.infoProvider ⟨req.subject.type, req.subject.id⟩ = .ok sResp →
      env.infoProvider ⟨req.resource.type, req.resource.id⟩ = .ok rResp →
      Orch.enrichAccessRequest env req =
        .ok ⟨⟨req.subject, sResp.info⟩, req.action, ⟨req.resource, rResp.info⟩⟩ := by
  intro env req sResp rResp hs hr
  simp only [Orch.enrichAccessRequest, hs, hr]

/-- Counterexample for C4 as stated: a PIP returning a successful response
with a nil `Info` map makes enrichment succeed with nil (not merely empty)
`Subject.Attributes` — the non-nil invariant does not hold for nil `Info`. -/
theorem c4_counterexample_nil_info_gives_nil_attributes :
    Orch.enrichAccessRequest
        ⟨fun _ => Except.ok ⟨none⟩, [], fun _ => Except.error "dm", "fresh"⟩
        sampleAccessRequest =
      .ok ⟨⟨⟨"u", "user"⟩, none⟩, ⟨"read"⟩, ⟨⟨"o", "order"⟩, none⟩⟩ ∧
    (Orch.EnrichedAccessRequest.subject
      ⟨⟨⟨"u", "user"⟩, none⟩, ⟨"read"⟩, ⟨⟨"o", "order"⟩, none⟩⟩).attributes = none :=
  ⟨rfl, rfl⟩

/-- Witness for the amended C4 at a concrete input. -/
theorem c4_enrichment_attributes_equal_provider_info_witness :
    Orch.enrichAccessRequest
        ⟨fun r => Except.ok ⟨some [("src", AttrValue.str r.params)]⟩, [],
         fun _ => Except.error "dm", "fresh"⟩
        sampleAccessRequest =
      .ok ⟨⟨⟨"u", "user"⟩, some [("src", AttrValue.str "u")]⟩, ⟨"read"⟩,
           ⟨⟨"o", "order"⟩, some [("src", AttrValue.str "o")]⟩⟩ :=
  c4_enrichment_attributes_equal_provider_info
    ⟨fun r => Except.ok ⟨some [("src", AttrValue.str r.params)]⟩, [],
     fun _ => Except.error "dm", "fresh"⟩
    sampleAccessRequest ⟨some [("src", AttrValue.str "u")]⟩
    ⟨some [("src", AttrValue.str "o")]⟩ rfl rfl

namespace Orch

/-- The keys contributed by one GetInfo outcome (an error contributes none). -/
def respKeys : Except String GetInfoResponse → List String
  | .ok resp => (resp.info.getD []).map Prod.fst
  | .error _ => []

/-- All keys contributed by the responses to a list of info requests. -/
def allInfoKeys (provider : GetInfoRequest → Except String GetInfoResponse)
    (reqs : List GetInfoRequest) : List String :=
  (reqs.map (fun r => respKeys (provider r))).flatten

theorem mergeInfo_ok_of_nodup (m : List (String × AttrValue)) :
    ∀ acc : List (String × AttrValue),
      ((acc ++ m).map Prod.fst).Nodup →
      mergeInfo acc m = .ok (acc ++ m) := by
  induction m with
  | nil => intro acc _; simp [mergeInfo]
  | cons p rest ih =>
    obtain ⟨k, v⟩ := p
    intro acc h
    have hids : (acc.map Prod.fst ++ (k :: rest.map Prod.fst)).Nodup := by
      simpa using h
    rw [List.nodup_append] at hids
    have hk : k ∉ acc.map Prod.fst := by
      intro hmem
      exact hids.2.2 hmem (by simp)
    have hfind : acc.find? (fun p => p.1 == k) = none := by
      rw [List.find?_eq_none]
      intro q hq
      simp only [beq_iff_eq]
      intro hcontra
      exact hk (hcontra ▸ List.mem_map_of_mem Prod.fst hq)
    have hre : acc ++ (k, v) :: rest = (acc ++ [(k, v)]) ++ rest := by simp
    rw [mergeInfo, hfind]
    simp only [Option.isSome_none, Bool.false_eq_true, if_false, hre]
    exact ih (acc ++ [(k, v)]) (by rw [← hre]; exact h)

theorem mergeInfo_error_of_dup (m : List (String × AttrValue)) :
    ∀ acc : List (String × AttrValue),
      ((acc.map Prod.fst)).Nodup →
      ¬ ((acc ++ m).map Prod.fst).Nodup →
      ∃ k, mergeInfo acc m = .error ("duplicate info for " ++ k) ∧
        2 ≤ ((acc ++ m).map Prod.fst).count k := by
  induction m with
  | nil => intro acc hacc hd; simp at hd; exact absurd hacc hd
  | cons p rest ih =>
    obtain ⟨k, v⟩ := p
    intro acc hacc hd
    by_cases hk : k ∈ acc.map Prod.fst
    · have hfind : (acc.find? (fun p => p.1 == k)).isSome = true := by
        rw [List.find?_isSome]
        obtain ⟨q, hq, hqk⟩ := List.mem_map.mp hk
        exact ⟨q, hq, by simp [hqk]⟩
      refine ⟨k, by rw [mergeInfo, hfind]; simp, ?_⟩
      have h1 : 1 ≤ (acc.map Prod.fst).count k := List.one_le_count_iff.mpr hk
      have h2 : ((acc ++ (k, v) :: rest).map Prod.fst).count k =
          (acc.map Prod.fst).count k + (((k, v) :: rest).map Prod.fst).count k := by
        rw [List.map_append, List.count_append]
      rw [h2]
      have h3 : 1 ≤ (((k, v) :: rest).map Prod.fst).count k := by
        simp [List.count_cons]
      omega
    · have hfind : acc.find? (fun p => p.1 == k) = none := by
        rw [List.find?_eq_none]
        intro q hq
        simp only [beq_iff_eq]
        intro hcontra
        exact hk (hcontra ▸ List.mem_map_of_mem Prod.fst hq)
      have hacc' : ((acc ++ [(k, v)]).map Prod.fst).Nodup := by
        simp only [List.map_append, List.map_cons, List.map_nil]
        rw [List.nodup_append]
        refine ⟨hacc, List.nodup_singleton _, ?_⟩
        intro a ha hb
        simp at hb
        exact hk (hb ▸ ha)
      have hre : (acc ++ [(k, v)]) ++ rest = acc ++ (k, v) :: rest := by simp
      obtain ⟨k', herr, hcount⟩ := ih (acc ++ [(k, v)]) hacc' (by rw [hre]; exact hd)
      refine ⟨k', ?_, by rw [← hre]; exact hcount⟩
      rw [mergeInfo, hfind]
      simpa using herr

theorem fetchInfo_error_of_dup
    (provider : GetInfoRequest → Except String GetInfoResponse)
    (reqs : List GetInfoRequest) :
    ∀ acc : List (String × AttrValue),
      (acc.map Prod.fst).Nodup →
      (∀ r ∈ reqs, ∃ resp, provider r = .ok resp) →
      ¬ (acc.map Prod.fst ++ allInfoKeys provider reqs).Nodup →
      ∃ k, fetchInfo provider acc reqs = .error ("duplicate info for " ++ k) ∧
        2 ≤ (acc.map Prod.fst ++ allInfoKeys provider reqs).count k := by
  induction reqs with
  | nil => intro acc hacc _ hd; simp [allInfoKeys] at hd; exact absurd hacc hd
  | cons r rest ih =>
    intro acc hacc hok hd
    obtain ⟨resp, hpr⟩ := hok r (by simp)
    have hkeys : allInfoKeys provider (r :: rest) =
        (resp.info.getD []).map Prod.fst ++ allInfoKeys provider rest := by
      simp [allInfoKeys, respKeys, hpr]
    set m := resp.info.getD [] with hm
    by_cases hfirst : ((acc ++ m).map Prod.fst).Nodup
    · have hmerge := mergeInfo_ok_of_nodup m acc hfirst
      have hd' : ¬ (((acc ++ m).map Prod.fst) ++ allInfoKeys provider rest).Nodup := by
        intro hcontra
        apply hd
        rw [hkeys]
        simpa [List.append_assoc] using hcontra
      obtain ⟨k, herr, hcount⟩ := ih (acc ++ m) hfirst
        (fun q hq => hok q (by simp [hq])) hd'
      refine ⟨k, ?_, ?_⟩
      · rw [fetchInfo, hpr]
        simp only [← hm, hmerge]
        exact herr
      · rw [hkeys]
        have : (((acc ++ m).map Prod.fst) ++ allInfoKeys provider rest).count k =
            (acc.map Prod.fst ++ (m.map Prod.fst ++ allInfoKeys provider rest)).count k := by
          simp [List.append_assoc]
        omega
    · obtain ⟨k, herr, hcount⟩ := mergeInfo_error_of_dup m acc hacc hfirst
      refine ⟨k, ?_, ?_⟩
      · rw [fetchInfo, hpr]
        simp only [← hm, herr]
      · rw [hkeys]
        have heq : ((acc ++ m).map Prod.fst).count k =
            (acc.map Prod.fst).count k + (m.map Prod.fst).count k := by
          rw [List.map_append, List.count_append]
        have hsplit : (acc.map Prod.fst ++
            (m.map Prod.fst ++ allInfoKeys provider rest)).count k =
            (acc.map Prod.fst).count k + ((m.map Prod.fst).count k +
              (allInfoKeys provider rest).count k) := by
          rw [List.count_append, List.count_append]
        omega

end Orch

/-- Claim C5: when every secondary GetInfo call succeeds but the responses
contain a duplicated key, the additional-info step fails with "duplicate
info for <key>" for a key occurring at least twice, and `EvaluateAccess`
surfaces that failure wrapped as "failed to get additional info: ..."
instead of producing an AccessResponse. -/
theorem c5_duplicate_info_key_fails_evaluate_access :
    ∀ (env : Orch.Env) (req : RO.AccessRequest)
      (enriched : Orch.EnrichedAccessRequest)
      (infoReqs : List Orch.GetInfoRequest),
      Orch.enrichAccessRequest env req = .ok enriched →
      Orch.analyseList env.infoAnalysers enriched = .ok infoReqs →
      (∀ r ∈ infoReqs, ∃ resp, env.infoProvider r = .ok resp) →
      ¬ (Orch.allInfoKeys env.infoProvider infoReqs).Nodup →
      ∃ k, 2 ≤ (Orch.allInfoKeys env.infoProvider infoReqs).count k ∧
        Orch.EvaluateAccess env req =
          .error ("failed to get additional info: " ++ ("duplicate info for " ++ k)) := by
  intro env req enriched infoReqs henr han hok hdup
  obtain ⟨k, herr, hcount⟩ := Orch.fetchInfo_error_of_dup env.infoProvider infoReqs
    [] (by simp) hok (by simpa using hdup)
  refine ⟨k, by simpa using hcount, ?_⟩
  have hadd : Orch.getAdditionalInfo env infoReqs =
      .error ("duplicate info for " ++ k) := herr
  simp only [Orch.EvaluateAccess, henr, han, hadd]

/-- Witness for C5 at the spec's concrete scenario: two analysers emit
`meta`-typed requests whose responses both contain the key `key`;
`EvaluateAccess` fails with the wrapped duplicate-key error. -/
theorem c5_duplicate_info_key_fails_evaluate_access_witness :
    ∃ k, 2 ≤ (Orch.allInfoKeys
        (fun r => Except.ok ⟨some [("key", AttrValue.str r.params)]⟩)
        [⟨"meta", "a"⟩, ⟨"meta", "b"⟩]).count k ∧
      Orch.EvaluateAccess
          ⟨fun r => Except.ok ⟨some [("key", AttrValue.str r.params)]⟩,
           [fun _ => Except.ok [⟨"meta", "a"⟩], fun _ => Except.ok [⟨"meta", "b"⟩]],
           fun _ => Except.error "dm", "fresh"⟩ sampleAccessRequest =
        .error ("failed to get additional info: " ++ ("duplicate info for " ++ k)) := by
  have h := c5_duplicate_info_key_fails_evaluate_access
    ⟨fun r => Except.ok ⟨some [("key", AttrValue.str r.params)]⟩,
     [fun _ => Except.ok [⟨"meta", "a"⟩], fun _ => Except.ok [⟨"meta", "b"⟩]],
     fun _ => Except.error "dm", "fresh"⟩ sampleAccessRequest
    ⟨⟨⟨"u", "user"⟩, some [("key", AttrValue.str "u")]⟩, ⟨"read"⟩,
     ⟨⟨"o", "order"⟩, some [("key", AttrValue.str "o")]⟩⟩
    [⟨"meta", "a"⟩, ⟨"meta", "b"⟩] rfl rfl
    (fun r _ => ⟨⟨some [("key", AttrValue.str r.params)]⟩, rfl⟩)
    (by decide)
  exact h

/-- Claim C9: the additional-info merge as the goroutine executes it. On a
key collision the task returns the duplicate-key error while still holding
the mutex — the critical section is exited without `mu.Unlock()` (the
source has no `defer`), contradicting the spec's "releases the mutex";
without a collision the merge completes and the unlock runs. -/
theorem c9_collision_returns_with_mutex_held :
    Orch.mergeInfoCS [("key", AttrValue.str "a")] [("key", AttrValue.str "b")] =
      (.error "duplicate info for key", false) ∧
    Orch.mergeInfoCS [] [("key", AttrValue.str "a")] =
      (.ok [("key", AttrValue.str "a")], true) :=
  ⟨rfl, rfl⟩

/-- Claim C8: `toAccessResponse` copies Obligations and PolicyIdReferences
element-for-element unchanged, carries the Advice list unchanged under the
`Advices` field, and preserves RequestID and EvaluatedAt. -/
theorem c8_toAccessResponse_preserves_fields :
    ∀ resp : DM.DecisionResponse,
      (Orch.toAccessResponse resp).obligations =
        resp.obligations.map (fun o => ⟨o.id, o.attributes⟩) ∧
      (Orch.toAccessResponse resp).advices =
        resp.advice.map (fun a => ⟨a.id, a.attributes⟩) ∧
      (Orch.toAccessResponse resp).policyIdReferences =
        resp.policyIdReferences.map (fun p => ⟨p.id, p.version⟩) ∧
      (Orch.toAccessResponse resp).requestID = resp.requestID ∧
      (Orch.toAccessResponse resp).evaluatedAt = resp.evaluatedAt :=
  fun _ => ⟨rfl, rfl, rfl, rfl, rfl⟩

/-- Claim C6: at each segment `Search` takes the exact child when one
exists, falls back to the wildcard child only when no exact child matches,
and errors when neither exists (part 1); and in a trie holding both
`[api, *, status]` and `[api, v1, status]`, searching `[api, v1, status]`
returns the value stored under the exact pattern (part 2). -/
theorem c6_search_prefers_exact_over_wildcard :
    (∀ (T : Type) (orig : List String) (n : Trie.Node T) (p : String)
       (ps : List String),
      (∀ c, Trie.findChild n p = some c →
        Trie.searchAux orig n (p :: ps) = Trie.searchAux orig c ps) ∧
      (Trie.findChild n p = none → ∀ c, Trie.findChild n "*" = some c →
        Trie.searchAux orig n (p :: ps) = Trie.searchAux orig c ps) ∧
      (Trie.findChild n p = none → Trie.findChild n "*" = none →
        Trie.searchAux orig n (p :: ps) =
          .error ("no route found for key " ++ p ++ " in paths " ++
            Trie.goStrSlice orig)))
    ∧ (do
        let t1 ← Trie.Node.insert Trie.Node.new ["api", "*", "status"]
          "wildcard-handler"
        let t2 ← Trie.Node.insert t1 ["api", "v1", "status"] "exact-handler"
        let found ← Trie.Node.search t2 ["api", "v1", "status"]
        pure found.val) = Except.ok (some "exact-handler") := by
  refine ⟨fun T orig n p ps => ⟨?_, ?_, ?_⟩, rfl⟩
  · intro c hc
    simp only [Trie.searchAux, hc]
  · intro hnone c hc
    simp only [Trie.searchAux, hnone, hc]
  · intro hnone hwild
    simp only [Trie.searchAux, hnone, hwild]

/-- Witness for C6 at a concrete node: with both an exact child `a` and a
wildcard child present, the walk steps into the exact child. -/
theorem c6_search_prefers_exact_over_wildcard_witness :
    Trie.searchAux ["a"]
        (Trie.Node.mk [("a", Trie.Node.mk [] (some "va") true),
                       ("*", Trie.Node.mk [] (some "vw") true)] none false)
        ["a"] =
      Trie.searchAux ["a"] (Trie.Node.mk [] (some "va") true) [] :=
  (c6_search_prefers_exact_over_wildcard.1 String ["a"]
    (Trie.Node.mk [("a", Trie.Node.mk [] (some "va") true),
                   ("*", Trie.Node.mk [] (some "vw") true)] none false)
    "a" []).1 (Trie.Node.mk [] (some "va") true) rfl

/-- Claim C10: Search commits to an exact child and never backtracks to the
wildcard branch: with patterns `[api, v1]` and `[api, *, status]` inserted,
the wildcard pattern matches the path `[api, v1, status]` segmentwise, yet
`Search([api, v1, status])` fails. -/
theorem c10_search_commits_to_exact_child_without_backtracking :
    Trie.patternMatches ["api", "*", "status"] ["api", "v1", "status"] = true ∧
    (do
      let t1 ← Trie.Node.insert Trie.Node.new ["api", "v1"] "v1-handler"
      let t2 ← Trie.Node.insert t1 ["api", "*", "status"] "status-handler"
      let found ← Trie.Node.search t2 ["api", "v1", "status"]
      pure found.val) =
      Except.error "no route found for key status in paths [api v1 status]" :=
  ⟨rfl, rfl⟩

namespace PEP

theorem handleObligations_ok (hs : List (String × Except String Unit))
    (obs : List RO.Obligation)
    (hall : ∀ ob ∈ obs, findHandler hs ob.id = some (.ok ())) :
    handleObligations hs obs =
      (obs.map (fun o => Event.obligationCall o.id), none) := by
  induction obs with
  | nil => rfl
  | cons ob rest ih =>
    have hfind := hall ob (by simp)
    have hrest := ih (fun q hq => hall q (by simp [hq]))
    simp only [handleObligations, hfind, hrest, List.map_cons]

theorem handleObligations_err_none (hs : List (String × Except String Unit))
    (obs : List RO.Obligation)
    (hnone : (handleObligations hs obs).2 = none) :
    ∀ ob ∈ obs, findHandler hs ob.id = some (.ok ()) := by
  induction obs with
  | nil => intro ob hob; simp at hob
  | cons ob rest ih =>
    intro q hq
    cases hfind : findHandler hs ob.id with
    | none => simp [handleObligations, hfind] at hnone
    | some u =>
      cases u with
      | error e => simp [handleObligations, hfind] at hnone
      | ok v =>
        obtain rfl : v = () := rfl
        simp only [handleObligations, hfind] at hnone
        rcases List.mem_cons.mp hq with rfl | hq'
        · exact hfind
        · exact ih hnone q hq'

theorem handleObligations_events (hs : List (String × Except String Unit))
    (obs : List RO.Obligation) :
    ∀ ev ∈ (handleObligations hs obs).1, ∃ i, ev = Event.obligationCall i := by
  induction obs with
  | nil => intro ev hev; simp [handleObligations] at hev
  | cons ob rest ih =>
    intro ev hev
    cases hfind : findHandler hs ob.id with
    | none => simp [handleObligations, hfind] at hev
    | some u =>
      cases u with
      | error e =>
        simp only [handleObligations, hfind] at hev
        simp at hev
        exact ⟨ob.id, hev⟩
      | ok v =>
        obtain rfl : v = () := rfl
        simp only [handleObligations, hfind] at hev
        rcases List.mem_cons.mp hev with rfl | hev'
        · exact ⟨ob.id, rfl⟩
        · exact ih ev hev'

end PEP

/-- Claim C7: on a Permit decision the enforcer runs every obligation
handler (in order) to completion before invoking the downstream handler;
and when any obligation lacks a registered handler or its handler errors,
the enforcer responds 500 `obligation_failed` and the downstream handler is
never invoked. -/
theorem c7_obligations_complete_before_downstream :
    ∀ (e : PEP.Enforcer) (req : RO.AccessRequest) (resp : RO.AccessResponse),
      e.extract = .ok req →
      e.evaluate req = .ok resp →
      resp.decision = RO.Decision.permit →
      ((∀ ob ∈ resp.obligations,
          PEP.findHandler e.obligationHandlers ob.id = some (.ok ())) →
        PEP.enforce e =
          resp.obligations.map (fun o => PEP.Event.obligationCall o.id) ++
            ((PEP.handleAdvice e.adviceHandlers resp.advices).1 ++
              [PEP.Event.downstream]))
      ∧ ((∃ ob ∈ resp.obligations,
            PEP.findHandler e.obligationHandlers ob.id = none ∨
            ∃ msg, PEP.findHandler e.obligationHandlers ob.id =
              some (.error msg)) →
        PEP.enforce e =
          (PEP.handleObligations e.obligationHandlers resp.obligations).1 ++
            [PEP.Event.respond 500 "obligation_failed"] ∧
        PEP.Event.downstream ∉ PEP.enforce e) := by
  intro e req resp hex hev hperm
  constructor
  · intro hall
    have hob := PEP.handleObligations_ok e.obligationHandlers resp.obligations hall
    simp only [PEP.enforce, hex, hev, hperm, hob, List.append_assoc]
  · intro hbad
    have herr : (PEP.handleObligations e.obligationHandlers resp.obligations).2 ≠
        none := by
      intro hnone
      obtain ⟨ob, hmem, hcase⟩ := hbad
      have hgood := PEP.handleObligations_err_none _ _ hnone ob hmem
      rcases hcase with hnone' | ⟨msg, herr'⟩
      · rw [hgood] at hnone'
        exact Option.some_ne_none _ hnone'
      · rw [hgood] at herr'
        simp at herr'
    obtain ⟨s, hs⟩ := Option.ne_none_iff_exists'.mp herr
    have htrace : PEP.enforce e =
        (PEP.handleObligations e.obligationHandlers resp.obligations).1 ++
          [PEP.Event.respond 500 "obligation_failed"] := by
      simp only [PEP.enforce, hex, hev, hperm, hs]
    refine ⟨htrace, ?_⟩
    rw [htrace]
    intro hmem
    rcases List.mem_append.mp hmem with h1 | h2
    · obtain ⟨i, hi⟩ := PEP.handleObligations_events _ _ _ h1
      simp at hi
    · simp at h2

/-- Witness for C7 at a concrete input: a Permit with one `log` obligation
whose handler succeeds runs the obligation and then the downstream handler. -/
theorem c7_obligations_complete_before_downstream_witness :
    PEP.enforce
        ⟨[("log", Except.ok ())], [], .ok sampleAccessRequest,
         fun _ => .ok ⟨"rid", RO.Decision.permit, ⟨RO.StatusCode.ok, "granted"⟩,
           [⟨"log", none⟩], [], 0, []⟩⟩ =
      [PEP.Event.obligationCall "log", PEP.Event.downstream] := by
  have h := (c7_obligations_complete_before_downstream
    ⟨[("log", Except.ok ())], [], .ok sampleAccessRequest,
     fun _ => .ok ⟨"rid", RO.Decision.permit, ⟨RO.StatusCode.ok, "granted"⟩,
       [⟨"log", none⟩], [], 0, []⟩⟩
    sampleAccessRequest
    ⟨"rid", RO.Decision.permit, ⟨RO.StatusCode.ok, "granted"⟩,
     [⟨"log", none⟩], [], 0, []⟩ rfl rfl rfl).1
    (by
      intro ob hob
      have hq : ob = ⟨"log", none⟩ := by simpa using hob
      subst hq
      rfl)
  simpa using h
